import Mathlib

/-!
Shallow embedding of the `DataLoader` class defined in
`src/articles/use-dataloaders-to-batch-and-queue-database-requests-graphql.mdx`
(lines 263-318) and of the MDX component mapping in
`src/components/mdx/index.tsx`.

The JavaScript class is:

  class DataLoader {
    constructor(batchFn, options = {}) {
      this.batchFn = batchFn
      if (options.schedulingFn) { this.schedulingFn = options.schedulingFn }
      this.promises = {}
      this.activeQuery = null
    }
    batchFn() { throw new Error('Not implemented') }
    schedulingFn() { return new Promise((resolve) => { setTimeout(() => { resolve() }) }) }
    async load(key) {
      if (this.promises[key]) { return this.promises[key] }
      else { this.promises[key] = null }
      await this.schedulingFn()
      if (!this.activeQuery) {
        const ids = Object.keys(this.promises)
        this.activeQuery = this.batchFn(ids)
      }
      this.promises[key] = this.activeQuery.then((items) => {
        return items.find((item) => item.id === Number(key))
      })
      return this.promises[key]
    }
  }

The embedding models the cooperative (single-threaded, event-loop) execution
of `load`: every call runs synchronously up to `await this.schedulingFn()`
(the registration half, `loadSync`), suspends, and after the scheduling
deferral fires its continuation runs to completion (the dispatch/resolve
half, `loadCont`).  Calls issued in the same tick of the event loop all
register before any continuation resumes, and the continuations resume in
call order; this is exactly the behaviour of the `setTimeout`-based
`schedulingFn` (both the zero-delay default and the fixed-delay variant: the
choice of `schedulingFn` only stretches the window in real time, which the
tick structure abstracts).  A whole execution is a list of ticks, each tick a
list of keys passed to `load`.

Promises are modelled by their eventual outcomes (`Except Err`), since the
batch function is modelled as a pure function from the requested ids to the
outcome of the aggregate fetch.
-/

/-- JavaScript object property names are strings: `this.promises[key]` coerces
the key (a numeric row id at the call sites of the article) to a string, so
keys are modelled as strings. -/
abbrev Key := String

/-- Errors carried by rejected promises, modelled by their message. -/
abbrev Err := String

/-- A row returned by the aggregate fetch: the article's batch functions
select rows from `users`/`posts`, each with a numeric `id` column used by
`items.find((item) => item.id === Number(key))`; `payload` stands for the
remaining columns. -/
structure Item where
  id : Int
  payload : String
  deriving Repr, DecidableEq

instance {e a : Type} [DecidableEq e] [DecidableEq a] : DecidableEq (Except e a) := fun x y =>
  match x, y with
  | .ok u, .ok v =>
    if h : u = v then .isTrue (by rw [h]) else .isFalse (fun hc => by cases hc; exact h rfl)
  | .error u, .error v =>
    if h : u = v then .isTrue (by rw [h]) else .isFalse (fun hc => by cases hc; exact h rfl)
  | .ok _, .error _ => .isFalse (fun hc => by cases hc)
  | .error _, .ok _ => .isFalse (fun hc => by cases hc)

/-- Numeric value of a decimal digit character. -/
def digitVal (c : Char) : Nat := c.toNat - 48

/-- Accumulate the value of a list of decimal digits, most significant first. -/
def natOfChars : List Char → Nat → Nat
  | [], acc => acc
  | c :: cs, acc => natOfChars cs (acc * 10 + digitVal c)

/-- Parse a nonempty all-digit string to its value (leading zeros allowed),
`none` otherwise. -/
def strToNat (s : String) : Option Nat :=
  if s.data ≠ [] ∧ s.data.all Char.isDigit then some (natOfChars s.data 0) else none

/-- The JavaScript coercion `Number(key)` used at line 313 of the article,
restricted to the values that arise for keys: `Number('') = 0`, a (nonempty)
string of decimal digits evaluates to that integer, and any other string is
NaN (or a non-integer number), modelled as `none` — in the strict comparison
`item.id === Number(key)` against an integer `id`, NaN and non-integers
compare unequal to every id, which is all the model needs of them. -/
def jsNumber (s : String) : Option Int :=
  if s.data = [] then some 0 else (strToNat s).map (fun n => (n : Int))

/-- The strict comparison `item.id === Number(key)`: a numeric id is equal to
`Number(key)` only when `Number(key)` is that same integer; NaN (`none`)
compares unequal to everything. -/
def idMatches (itemId : Int) (numKey : Option Int) : Bool :=
  match numKey with
  | some n => itemId == n
  | none => false

/-- An ECMAScript array index: the canonical decimal form of an integer
below 2^32 - 1.  `Object.keys` lists such property names first, in ascending
numeric order; all other string keys follow in insertion order. -/
def isArrayIndex (s : String) : Bool :=
  match strToNat s with
  | some n => toString n == s && n < 4294967295
  | none => false

/-- Numeric value used to order array-index keys (0 for non-numeric strings,
which are never compared by it). -/
def numVal (s : String) : Nat := (strToNat s).getD 0

/-- Insert a key into a list sorted by `numVal`, keeping it sorted. -/
def insertByNum (x : Key) : List Key → List Key
  | [] => [x]
  | y :: ys => if numVal x ≤ numVal y then x :: y :: ys else y :: insertByNum x ys

/-- Sort keys by `numVal` (insertion sort). -/
def sortByNum : List Key → List Key
  | [] => []
  | x :: xs => insertByNum x (sortByNum xs)

/-- ECMAScript own-property enumeration order of a list of (distinct)
property names given in insertion order: array-index keys first, ascending
numerically, then the remaining keys in insertion order. -/
def jsKeyOrder (ks : List Key) : List Key :=
  sortByNum (ks.filter isArrayIndex) ++ ks.filter (fun k => !isArrayIndex k)

/-- The value stored at `this.promises[key]`: either the `null` placeholder
written before the scheduling deferral (falsy!), or the promise written by
`this.promises[key] = this.activeQuery.then(...)`, modelled by its eventual
outcome — the error of the rejected active query, or the `items.find(...)`
result (`none` = `undefined` when no item matches). -/
inductive PVal where
  | nullPh
  | prom (r : Except Err (Option Item))
  deriving DecidableEq, Repr

/-- The `this.promises` object: an association list in property insertion
order (re-assigning an existing property keeps its position, a new property
is appended — the ECMAScript rule that `jsKeyOrder` then enumerates). -/
def lookupP : List (Key × PVal) → Key → Option PVal
  | [], _ => none
  | (k', v) :: ps, k => if k' = k then some v else lookupP ps k

/-- Write `this.promises[k] = v`: update in place if the property exists,
append otherwise. -/
def setP : List (Key × PVal) → Key → PVal → List (Key × PVal)
  | [], k, v => [(k, v)]
  | (k', v') :: ps, k, v => if k' = k then (k', v) :: ps else (k', v') :: setP ps k v

/-- The property names of `this.promises`, in insertion order. -/
def keysOf (ps : List (Key × PVal)) : List Key := ps.map Prod.fst

/-- `Object.keys(this.promises)` (line 302 of the article): own enumerable
property names in ECMAScript enumeration order. -/
def objectKeys (ps : List (Key × PVal)) : List Key := jsKeyOrder (keysOf ps)

/-- A DataLoader instance.  The constructor runs `this.batchFn = batchFn`
unconditionally, so the field holds the constructor argument: `some f` when a
batch function was supplied, `none` (the own property holds `undefined`) when
the loader was constructed without one.  The `schedulingFn` option only
chooses the deferral timing, which the tick structure of a run models, so it
carries no data here. -/
structure DataLoader where
  batchFn : Option (List Key → Except Err (List Item))

/-- The error thrown by `this.batchFn(ids)` when the constructor was given no
batch function: the own property `batchFn` holds `undefined` (assigned
unconditionally by the constructor), and calling `undefined` throws a
TypeError. -/
def typeErr : Err := "TypeError: this.batchFn is not a function"

/-- The error thrown by the prototype method `batchFn()` of the class
(lines 275-277: `throw new Error('Not implemented')`).  On every constructed
instance the prototype method is shadowed by the own property the constructor
assigns, so `load` never reaches it. -/
def notImplErr : Err := "Error: Not implemented"

/-- The prototype's default batch function (lines 275-277 of the article):
it throws `Error('Not implemented')` unconditionally. -/
def protoBatchFn : List Key → Except Err (List Item) := fun _ => Except.error notImplErr

/-- Mutable state of a loader instance, plus instrumentation: `batchCalls`
logs the argument of every actual invocation of the supplied batch function,
and `schedCalls` counts the `await this.schedulingFn()` suspensions. -/
structure LoaderState where
  promises : List (Key × PVal)
  activeQuery : Option (Except Err (List Item))
  batchCalls : List (List Key)
  schedCalls : Nat
  deriving DecidableEq, Repr

/-- State of a freshly constructed loader: `this.promises = {}`,
`this.activeQuery = null`. -/
def initState : LoaderState :=
  { promises := [], activeQuery := none, batchCalls := [], schedCalls := 0 }

/-- The settled outcome of
`this.activeQuery.then((items) => items.find((item) => item.id === Number(key)))`
(lines 309-314): a rejection of the active query propagates unchanged, a
fulfilment with `items` yields the first item whose `id` strictly equals
`Number(key)` (`none` = `undefined` when no item matches). -/
def resolveKey (q : Except Err (List Item)) (k : Key) : Except Err (Option Item) :=
  match q with
  | .error e => .error e
  | .ok items => .ok (items.find? (fun item => idMatches item.id (jsNumber k)))

/-- The synchronous half of `load(key)` (lines 290-296), up to
`await this.schedulingFn()`: a truthy cached promise is returned at once
(`some` outcome, no suspension); otherwise — the property is absent
(`undefined`) or holds the falsy `null` placeholder — `null` is (re)written
and the call suspends on the scheduling deferral (`none`, `schedCalls`
incremented). -/
def loadSync (s : LoaderState) (k : Key) : Option (Except Err (Option Item)) × LoaderState :=
  match lookupP s.promises k with
  | some (.prom r) => (some r, s)
  | _ => (none, { s with promises := setP s.promises k .nullPh,
                         schedCalls := s.schedCalls + 1 })

/-- The continuation of `load(key)` after the deferral (lines 300-316): if
`this.activeQuery` is still null, call the batch function on
`Object.keys(this.promises)` and store the resulting promise (when no batch
function was supplied this call throws `typeErr` and the continuation aborts
with `activeQuery` still null); then overwrite `this.promises[key]` with the
promise derived from the active query and return it. -/
def loadCont (L : DataLoader) (s : LoaderState) (k : Key) :
    Except Err (Option Item) × LoaderState :=
  match s.activeQuery with
  | some q =>
    let r := resolveKey q k
    (r, { s with promises := setP s.promises k (.prom r) })
  | none =>
    match L.batchFn with
    | none => (Except.error typeErr, s)
    | some f =>
      let ids := objectKeys s.promises
      let q := f ids
      let r := resolveKey q k
      (r, { s with activeQuery := some q,
                   batchCalls := s.batchCalls ++ [ids],
                   promises := setP s.promises k (.prom r) })

/-- Registration phase of one tick: every `load` call of the tick runs its
synchronous half, in call order, before any deferral fires.  Produces, per
call, either the cached outcome (`some r`) or a suspension marker (`none`). -/
def phase1 : LoaderState → List Key → List (Key × Option (Except Err (Option Item))) × LoaderState
  | s, [] => ([], s)
  | s, k :: ks =>
    match loadSync s k with
    | (o, s1) =>
      match phase1 s1 ks with
      | (rest, s2) => ((k, o) :: rest, s2)

/-- What one `load(key)` call of a run settles to: `cached` records whether it
was answered synchronously from a truthy cache entry, `outcome` the value or
error its returned promise settles with. -/
structure CallResult where
  key : Key
  cached : Bool
  outcome : Except Err (Option Item)
  deriving DecidableEq, Repr

/-- Resume phase of one tick: the scheduling deferrals fire in registration
order and each suspended continuation runs to completion before the next
(each resumption is a microtask of the cooperative loop); cached calls
already returned in phase 1 and are passed through. -/
def phase2 (L : DataLoader) :
    LoaderState → List (Key × Option (Except Err (Option Item))) → List CallResult × LoaderState
  | s, [] => ([], s)
  | s, (k, some r) :: pend =>
    match phase2 L s pend with
    | (rs, s') => ({ key := k, cached := true, outcome := r } :: rs, s')
  | s, (k, none) :: pend =>
    match loadCont L s k with
    | (r, s1) =>
      match phase2 L s1 pend with
      | (rs, s') => ({ key := k, cached := false, outcome := r } :: rs, s')

/-- One tick of the event loop: all calls register, then all suspended
continuations resume, in call order. -/
def runTick (L : DataLoader) (s : LoaderState) (calls : List Key) :
    List CallResult × LoaderState :=
  match phase1 s calls with
  | (pend, s1) => phase2 L s1 pend

/-- A whole run: the ticks execute in order on the same loader instance. -/
def runTicks (L : DataLoader) : LoaderState → List (List Key) → List (List CallResult) × LoaderState
  | s, [] => ([], s)
  | s, t :: ts =>
    match runTick L s t with
    | (rs, s1) =>
      match runTicks L s1 ts with
      | (rss, s2) => (rs :: rss, s2)

/-- Run a freshly constructed loader through a list of ticks. -/
def run (L : DataLoader) (ticks : List (List Key)) : List (List CallResult) × LoaderState :=
  runTicks L initState ticks

/-- First-occurrence set of the keys of one tick: the property names
`this.promises` accumulates, in insertion order. -/
def addKey (ks : List Key) (k : Key) : List Key := if k ∈ ks then ks else ks ++ [k]

/-- Distinct keys of a tick in first-request order. -/
def firstOcc (calls : List Key) : List Key := calls.foldl addKey []

/-- The ids the single dispatch of a fresh window passes to the batch
function: the distinct requested keys in ECMAScript enumeration order. -/
def tickIds (calls : List Key) : List Key := jsKeyOrder (firstOcc calls)

/-- A sample user table for concrete runs. -/
def exItems : List Item := [⟨1, "Alice"⟩, ⟨2, "Bob"⟩, ⟨7, "Grace"⟩]

/-- A sample batch function: return the rows of `exItems` whose id is among
the requested keys (a `SELECT * FROM users WHERE id IN (...)`). -/
def exF (ks : List Key) : Except Err (List Item) :=
  Except.ok (exItems.filter (fun it => ks.any (fun k => idMatches it.id (jsNumber k))))

/-- A loader built over `exF`. -/
def exLoader : DataLoader := { batchFn := some exF }

/-- A batch function whose aggregate fetch always fails. -/
def exFailF : List Key → Except Err (List Item) := fun _ => Except.error "db down"

/-- A loader whose aggregate fetch always fails. -/
def exFailLoader : DataLoader := { batchFn := some exFailF }

/-- A loader constructed without a batch function (`new DataLoader()`). -/
def noFnLoader : DataLoader := { batchFn := none }

/-! ## The MDX component mapping (src/components/mdx/index.tsx)

The default export maps markup element names to presentational components;
each of the simple entries renders one fixed HTML element with a fixed
`className`, spreading the incoming props.  The mapping is embedded by the
element such an entry renders: its tag name and its `className`. -/

/-- The element a simple entry of the MDX component map renders: the HTML tag
it emits and the `className` it sets (empty when none is set). -/
structure MdxComponent where
  tag : String
  className : String
  deriving DecidableEq, Repr

/-- The static entries of the default export of `src/components/mdx/index.tsx`:
markup element name, and the element the registered component renders. -/
def mdxEntries : List (String × MdxComponent) :=
  [ ("h1", { tag := "h1", className := "mt-10 mb-4 leading-tight text-gray-800 text-28 font-300" }),
    ("h2", { tag := "h2", className := "mt-10 mb-4 text-gray-500 text-24 font-300" }),
    ("h3", { tag := "h3", className := "mt-10 mb-4 text-gray-500 font-500" }),
    ("h4", { tag := "s", className := "" }),
    ("h5", { tag := "s", className := "" }),
    ("h6", { tag := "s", className := "" }),
    ("a", { tag := "a", className := "text-blue-700 underline" }),
    ("p", { tag := "p", className := "mb-5 " }),
    ("li", { tag := "li", className := "text-gray-600 list-disc" }),
    ("ul", { tag := "ul", className := "mb-4 ml-5" }),
    ("ins", { tag := "ins", className := "block px-4 -mx-4 bg-green-800" }),
    ("del", { tag := "ins", className := "block px-4 -mx-4 bg-blue-800" }),
    ("code", { tag := "code", className := "bg-blue-600 text-16" }),
    ("blockquote", { tag := "blockquote", className := "italic" }) ]

/-- The component registered for a markup element name, if a simple entry. -/
def mdxComponentFor (name : String) : Option MdxComponent :=
  (mdxEntries.find? (fun e => e.1 == name)).map Prod.snd

/-- Split a character list into space-separated words. -/
def wordsAux : List Char → List Char → List (List Char)
  | [], acc => [acc.reverse]
  | c :: cs, acc => if c = ' ' then acc.reverse :: wordsAux cs [] else wordsAux cs (c :: acc)

/-- Whether a component's class list (space-separated) contains a class. -/
def hasClass (c : MdxComponent) (cls : String) : Bool :=
  (wordsAux c.className.data []).contains cls.data

/-! ## Basic lemmas about the promises object -/

theorem lookupP_setP_self (ps : List (Key × PVal)) (k : Key) (v : PVal) :
    lookupP (setP ps k v) k = some v := by
  induction ps with
  | nil => simp [setP, lookupP]
  | cons p ps ih =>
    obtain ⟨k', v'⟩ := p
    by_cases h : k' = k
    · simp [setP, lookupP, h]
    · simp [setP, lookupP, h, ih]

theorem lookupP_setP_ne (ps : List (Key × PVal)) {k' k : Key} (v : PVal) (h : k' ≠ k) :
    lookupP (setP ps k' v) k = lookupP ps k := by
  induction ps with
  | nil => simp [setP, lookupP, h]
  | cons p ps ih =>
    obtain ⟨k₀, v₀⟩ := p
    by_cases h0 : k₀ = k'
    · subst h0
      simp [setP, lookupP, h]
    · simp only [setP, if_neg h0, lookupP]
      by_cases h1 : k₀ = k
      · simp [h1]
      · simp [h1, ih]

/-- A key that appears in a tick while a later key is absent stays absent. -/
theorem lookupP_nil (k : Key) : lookupP [] k = none := rfl

theorem keysOf_setP (ps : List (Key × PVal)) (k : Key) (v : PVal) :
    keysOf (setP ps k v) = addKey (keysOf ps) k := by
  induction ps with
  | nil => simp [setP, keysOf, addKey]
  | cons p ps ih =>
    obtain ⟨k₀, v₀⟩ := p
    by_cases h : k₀ = k
    · subst h
      simp [setP, keysOf, addKey, List.mem_cons]
    · simp only [setP, if_neg h, keysOf, List.map_cons] at *
      rw [ih]
      simp only [addKey, List.mem_cons]
      by_cases hm : k ∈ List.map Prod.fst ps
      · simp [hm, h, Ne.symm h]
      · simp [hm, h, Ne.symm h]

/-! ## Placeholder maps: the promises object before any dispatch -/

/-- The promises object holding the `null` placeholder for each key of `ks`. -/
def placeholders (ks : List Key) : List (Key × PVal) := ks.map (fun k => (k, PVal.nullPh))

theorem lookupP_placeholders (ks : List Key) (k : Key) :
    lookupP (placeholders ks) k = none ∨ lookupP (placeholders ks) k = some PVal.nullPh := by
  induction ks with
  | nil => simp [placeholders, lookupP]
  | cons k' ks ih =>
    by_cases h : k' = k
    · simp [placeholders, lookupP, h]
    · simpa [placeholders, lookupP, h] using ih

theorem lookupP_placeholders_not_mem {ks : List Key} {k : Key} (h : k ∉ ks) :
    lookupP (placeholders ks) k = none := by
  induction ks with
  | nil => rfl
  | cons k' ks ih =>
    simp only [List.mem_cons, not_or] at h
    simp [placeholders, lookupP, Ne.symm h.1, ih h.2, placeholders] at *
    simpa [placeholders] using ih h.2

theorem setP_placeholders (ks : List Key) (k : Key) :
    setP (placeholders ks) k PVal.nullPh = placeholders (addKey ks k) := by
  induction ks with
  | nil => simp [placeholders, setP, addKey]
  | cons k' ks ih =>
    by_cases h : k' = k
    · subst h
      simp [placeholders, setP, addKey, List.mem_cons]
    · simp only [placeholders, List.map_cons, setP, if_neg h] at *
      rw [ih]
      simp only [addKey, List.mem_cons]
      by_cases hm : k ∈ ks
      · simp [hm, h, Ne.symm h, placeholders]
      · simp [hm, h, Ne.symm h, placeholders]

theorem keysOf_placeholders (ks : List Key) : keysOf (placeholders ks) = ks := by
  induction ks with
  | nil => rfl
  | cons k ks ih => simpa [keysOf, placeholders] using ih

/-! ## addKey and firstOcc -/

theorem addKey_sub {ks : List Key} {k a : Key} (h : a ∈ addKey ks k) : a ∈ ks ∨ a = k := by
  by_cases hm : k ∈ ks
  · simp [addKey, hm] at h
    exact Or.inl h
  · simp [addKey, hm] at h
    exact h

theorem addKey_nodup {ks : List Key} {k : Key} (h : ks.Nodup) : (addKey ks k).Nodup := by
  by_cases hm : k ∈ ks
  · simpa [addKey, hm] using h
  · simp only [addKey, if_neg hm]
    rw [List.nodup_append]
    refine ⟨h, List.nodup_singleton k, ?_⟩
    intro b hb hbk
    simp only [List.mem_singleton] at hbk
    subst hbk
    exact hm hb

theorem foldl_addKey_sub {calls : List Key} :
    ∀ {acc : List Key} {a : Key}, a ∈ calls.foldl addKey acc → a ∈ acc ∨ a ∈ calls := by
  induction calls with
  | nil => intro acc a h; exact Or.inl h
  | cons c cs ih =>
    intro acc a h
    rcases @ih (addKey acc c) a h with h' | h'
    · rcases addKey_sub h' with h'' | h''
      · exact Or.inl h''
      · exact Or.inr (by simp [h''])
    · exact Or.inr (by simp [h'])

theorem foldl_addKey_nodup {calls : List Key} :
    ∀ {acc : List Key}, acc.Nodup → (calls.foldl addKey acc).Nodup := by
  induction calls with
  | nil => intro acc h; exact h
  | cons c cs ih => intro acc h; exact ih (addKey_nodup h)

theorem firstOcc_nodup (calls : List Key) : (firstOcc calls).Nodup :=
  foldl_addKey_nodup List.nodup_nil

theorem firstOcc_sub {calls : List Key} {a : Key} (h : a ∈ firstOcc calls) : a ∈ calls := by
  rcases foldl_addKey_sub h with h' | h'
  · cases h'
  · exact h'

/-! ## jsKeyOrder is a permutation of its input -/

theorem insertByNum_perm (x : Key) (l : List Key) : (insertByNum x l).Perm (x :: l) := by
  induction l with
  | nil => simp [insertByNum]
  | cons y ys ih =>
    by_cases h : numVal x ≤ numVal y
    · simp [insertByNum, h]
    · simp only [insertByNum, if_neg h]
      exact (ih.cons y).trans (List.Perm.swap x y ys)

theorem sortByNum_perm (l : List Key) : (sortByNum l).Perm l := by
  induction l with
  | nil => simp [sortByNum]
  | cons x xs ih => exact (insertByNum_perm x (sortByNum xs)).trans (ih.cons x)

theorem jsKeyOrder_perm (ks : List Key) : (jsKeyOrder ks).Perm ks := by
  unfold jsKeyOrder
  exact ((sortByNum_perm _).append_right _).trans (List.filter_append_perm _ ks)

theorem tickIds_perm (calls : List Key) : (tickIds calls).Perm (firstOcc calls) :=
  jsKeyOrder_perm (firstOcc calls)

theorem tickIds_nodup (calls : List Key) : (tickIds calls).Nodup :=
  ((tickIds_perm calls).nodup_iff).mpr (firstOcc_nodup calls)

theorem tickIds_sub {calls : List Key} {a : Key} (h : a ∈ tickIds calls) : a ∈ calls :=
  firstOcc_sub ((tickIds_perm calls).mem_iff.mp h)

theorem tickIds_singleton (a : Key) : tickIds [a] = [a] := by
  by_cases h : isArrayIndex a = true
  · simp [tickIds, firstOcc, addKey, jsKeyOrder, h, sortByNum, insertByNum, List.foldl]
  · simp [tickIds, firstOcc, addKey, jsKeyOrder, h, sortByNum, insertByNum, List.foldl]

/-! ## The registration phase on a pre-dispatch (all-placeholder) state -/

theorem phase1_placeholders (calls : List Key) :
    ∀ (ks : List Key) (s : LoaderState), s.promises = placeholders ks →
      (phase1 s calls).1 =
        calls.map (fun k => (k, (none : Option (Except Err (Option Item))))) ∧
      (phase1 s calls).2.promises = placeholders (calls.foldl addKey ks) ∧
      (phase1 s calls).2.activeQuery = s.activeQuery ∧
      (phase1 s calls).2.batchCalls = s.batchCalls ∧
      (phase1 s calls).2.schedCalls = s.schedCalls + calls.length := by
  induction calls with
  | nil => intro ks s hs; simp [phase1, hs]
  | cons k cs ih =>
    intro ks s hs
    have hstep : phase1 s (k :: cs) =
        ((k, (none : Option (Except Err (Option Item)))) ::
          (phase1 { s with promises := placeholders (addKey ks k),
                           schedCalls := s.schedCalls + 1 } cs).1,
         (phase1 { s with promises := placeholders (addKey ks k),
                          schedCalls := s.schedCalls + 1 } cs).2) := by
      rcases lookupP_placeholders ks k with hl | hl
      · simp [phase1, loadSync, hs, hl, setP_placeholders]
      · simp [phase1, loadSync, hs, hl, setP_placeholders]
    obtain ⟨ih1, ih2, ih3, ih4, ih5⟩ :=
      ih (addKey ks k)
        { s with promises := placeholders (addKey ks k), schedCalls := s.schedCalls + 1 } rfl
    refine ⟨?_, ?_, ?_, ?_, ?_⟩
    · rw [hstep]; simp [ih1]
    · rw [hstep]; simpa using ih2
    · rw [hstep]; simpa using ih3
    · rw [hstep]; simpa using ih4
    · rw [hstep]
      simp only [List.length_cons]
      rw [ih5]
      show s.schedCalls + 1 + cs.length = s.schedCalls + (cs.length + 1)
      omega

/-! ## The resume phase once the active query exists -/

theorem phase2_active (pend : List (Key × Option (Except Err (Option Item)))) :
    ∀ (s : LoaderState) (L : DataLoader) (q : Except Err (List Item)),
      s.activeQuery = some q →
      (phase2 L s pend).1 = pend.map (fun e =>
          match e.2 with
          | some r => { key := e.1, cached := true, outcome := r }
          | none => { key := e.1, cached := false, outcome := resolveKey q e.1 }) ∧
      (phase2 L s pend).2.activeQuery = some q ∧
      (phase2 L s pend).2.batchCalls = s.batchCalls ∧
      (phase2 L s pend).2.schedCalls = s.schedCalls := by
  induction pend with
  | nil => intro s L q hq; simp [phase2, hq]
  | cons e rest ih =>
    intro s L q hq
    obtain ⟨k, o⟩ := e
    cases o with
    | some r =>
      obtain ⟨ih1, ih2, ih3, ih4⟩ := ih s L q hq
      simp [phase2, ih1, ih2, ih3, ih4]
    | none =>
      have hstep : loadCont L s k =
          (resolveKey q k,
           { s with promises := setP s.promises k (PVal.prom (resolveKey q k)) }) := by
        simp [loadCont, hq]
      obtain ⟨ih1, ih2, ih3, ih4⟩ :=
        ih { s with promises := setP s.promises k (PVal.prom (resolveKey q k)) } L q hq
      simp [phase2, hstep, ih1, ih2, ih3, ih4]

theorem phase2_lookup_preserved (pend : List (Key × Option (Except Err (Option Item)))) :
    ∀ (s : LoaderState) (L : DataLoader) (q : Except Err (List Item)) (k : Key),
      s.activeQuery = some q →
      (∀ e ∈ pend, e.2 = none → e.1 ≠ k) →
      lookupP (phase2 L s pend).2.promises k = lookupP s.promises k := by
  induction pend with
  | nil => intro s L q k _ _; simp [phase2]
  | cons e rest ih =>
    intro s L q k hq hne
    obtain ⟨k', o⟩ := e
    cases o with
    | some r =>
      simp only [phase2]
      exact ih s L q k hq (fun e he h0 => hne e (by simp [he]) h0)
    | none =>
      have hk' : k' ≠ k := hne (k', none) (by simp) rfl
      have hstep : loadCont L s k' =
          (resolveKey q k',
           { s with promises := setP s.promises k' (PVal.prom (resolveKey q k')) }) := by
        simp [loadCont, hq]
      simp only [phase2, hstep]
      rw [ih { s with promises := setP s.promises k' (PVal.prom (resolveKey q k')) } L q k hq
            (fun e he h0 => hne e (by simp [he]) h0)]
      exact lookupP_setP_ne s.promises _ hk'

theorem phase2_lookup_mem (pend : List (Key × Option (Except Err (Option Item)))) :
    ∀ (s : LoaderState) (L : DataLoader) (q : Except Err (List Item)) (k : Key),
      s.activeQuery = some q →
      (k, (none : Option (Except Err (Option Item)))) ∈ pend →
      lookupP (phase2 L s pend).2.promises k = some (PVal.prom (resolveKey q k)) := by
  induction pend with
  | nil => intro s L q k _ hm; cases hm
  | cons e rest ih =>
    intro s L q k hq hm
    obtain ⟨k', o⟩ := e
    cases o with
    | some r =>
      have hm' : (k, (none : Option (Except Err (Option Item)))) ∈ rest := by
        rcases List.mem_cons.mp hm with h | h
        · cases h
        · exact h
      simp only [phase2]
      exact ih s L q k hq hm'
    | none =>
      have hstep : loadCont L s k' =
          (resolveKey q k',
           { s with promises := setP s.promises k' (PVal.prom (resolveKey q k')) }) := by
        simp [loadCont, hq]
      simp only [phase2, hstep]
      by_cases hr : (k, (none : Option (Except Err (Option Item)))) ∈ rest
      · exact ih _ L q k hq hr
      · have hk : k = k' := by
          rcases List.mem_cons.mp hm with h | h
          · exact congrArg Prod.fst h
          · exact absurd h hr
        subst hk
        have hcond : ∀ e ∈ rest, e.2 = none → e.1 ≠ k := by
          intro e he h0 hek
          obtain ⟨e1, e2⟩ := e
          apply hr
          have h0' : e2 = none := h0
          have hek' : e1 = k := hek
          rw [h0', hek'] at he
          exact he
        rw [phase2_lookup_preserved rest
              { s with promises := setP s.promises k (PVal.prom (resolveKey q k)) } L q k hq
              hcond]
        exact lookupP_setP_self s.promises k _

/-! ## Unfolding the drivers -/

theorem runTick_eq (L : DataLoader) (s : LoaderState) (calls : List Key) :
    runTick L s calls = phase2 L (phase1 s calls).2 (phase1 s calls).1 := rfl

theorem runTicks_nil (L : DataLoader) (s : LoaderState) : runTicks L s [] = ([], s) := rfl

theorem runTicks_cons (L : DataLoader) (s : LoaderState) (t : List Key) (ts : List (List Key)) :
    runTicks L s (t :: ts) =
      ((runTick L s t).1 :: (runTicks L (runTick L s t).2 ts).1,
       (runTicks L (runTick L s t).2 ts).2) := rfl

theorem run_single (L : DataLoader) (t : List Key) :
    run L [t] = ([(runTick L initState t).1], (runTick L initState t).2) := rfl

theorem run_two (L : DataLoader) (t1 t2 : List Key) :
    run L [t1, t2] =
      ([(runTick L initState t1).1, (runTick L (runTick L initState t1).2 t2).1],
       (runTick L (runTick L initState t1).2 t2).2) := rfl

/-! ## The master characterisation of the first (fresh) window -/

theorem runTick_fresh (f : List Key → Except Err (List Item)) (c : Key) (cs : List Key) :
    (runTick { batchFn := some f } initState (c :: cs)).1 =
      (c :: cs).map (fun k =>
        { key := k, cached := false, outcome := resolveKey (f (tickIds (c :: cs))) k }) ∧
    (runTick { batchFn := some f } initState (c :: cs)).2.activeQuery =
      some (f (tickIds (c :: cs))) ∧
    (runTick { batchFn := some f } initState (c :: cs)).2.batchCalls = [tickIds (c :: cs)] ∧
    (runTick { batchFn := some f } initState (c :: cs)).2.schedCalls = (c :: cs).length ∧
    (∀ k ∈ c :: cs,
      lookupP (runTick { batchFn := some f } initState (c :: cs)).2.promises k =
        some (PVal.prom (resolveKey (f (tickIds (c :: cs))) k))) ∧
    (∀ k, k ∉ c :: cs →
      lookupP (runTick { batchFn := some f } initState (c :: cs)).2.promises k = none) := by
  obtain ⟨p1, p2, p3, p4, p5⟩ := phase1_placeholders (c :: cs) [] initState rfl
  have hids : objectKeys (phase1 initState (c :: cs)).2.promises = tickIds (c :: cs) := by
    rw [p2, objectKeys, keysOf_placeholders]
    rfl
  have hq0 : (phase1 initState (c :: cs)).2.activeQuery = none := p3
  have hstep : runTick { batchFn := some f } initState (c :: cs) =
      ({ key := c, cached := false, outcome := resolveKey (f (tickIds (c :: cs))) c } ::
        (phase2 { batchFn := some f }
          { (phase1 initState (c :: cs)).2 with
              activeQuery := some (f (tickIds (c :: cs))),
              batchCalls := (phase1 initState (c :: cs)).2.batchCalls ++ [tickIds (c :: cs)],
              promises := setP (phase1 initState (c :: cs)).2.promises c
                (PVal.prom (resolveKey (f (tickIds (c :: cs))) c)) }
          (cs.map (fun k => (k, none)))).1,
       (phase2 { batchFn := some f }
          { (phase1 initState (c :: cs)).2 with
              activeQuery := some (f (tickIds (c :: cs))),
              batchCalls := (phase1 initState (c :: cs)).2.batchCalls ++ [tickIds (c :: cs)],
              promises := setP (phase1 initState (c :: cs)).2.promises c
                (PVal.prom (resolveKey (f (tickIds (c :: cs))) c)) }
          (cs.map (fun k => (k, none)))).2) := by
    rw [runTick_eq, p1]
    simp only [List.map_cons]
    simp [phase2, loadCont, hq0, hids]
  obtain ⟨a1, a2, a3, a4⟩ := phase2_active (cs.map (fun k => (k, none)))
    { (phase1 initState (c :: cs)).2 with
        activeQuery := some (f (tickIds (c :: cs))),
        batchCalls := (phase1 initState (c :: cs)).2.batchCalls ++ [tickIds (c :: cs)],
        promises := setP (phase1 initState (c :: cs)).2.promises c
          (PVal.prom (resolveKey (f (tickIds (c :: cs))) c)) }
    { batchFn := some f } (f (tickIds (c :: cs))) rfl
  refine ⟨?_, ?_, ?_, ?_, ?_, ?_⟩
  · rw [hstep]
    simp only [a1, List.map_map, List.map_cons]
    rfl
  · rw [hstep]
    exact a2
  · rw [hstep]
    rw [a3]
    show (phase1 initState (c :: cs)).2.batchCalls ++ [tickIds (c :: cs)] = [tickIds (c :: cs)]
    rw [p4]
    rfl
  · rw [hstep]
    rw [a4]
    show (phase1 initState (c :: cs)).2.schedCalls = (c :: cs).length
    rw [p5]
    show 0 + (c :: cs).length = (c :: cs).length
    omega
  · intro k hk
    rw [hstep]
    show lookupP (phase2 _ _ _).2.promises k = _
    by_cases hmem : (k, (none : Option (Except Err (Option Item)))) ∈
        cs.map (fun k => (k, none))
    · exact phase2_lookup_mem _ _ _ _ _ rfl hmem
    · have hkc : k = c := by
        rcases List.mem_cons.mp hk with h | h
        · exact h
        · exfalso
          exact hmem (List.mem_map.mpr ⟨k, h, rfl⟩)
      subst hkc
      have hcond : ∀ e ∈ cs.map (fun k => (k, (none : Option (Except Err (Option Item))))),
          e.2 = none → e.1 ≠ k := by
        intro e he _ hek
        rcases List.mem_map.mp he with ⟨x, hx, hxe⟩
        rw [← hxe] at hek
        have hxk : x = k := hek
        apply hmem
        rw [← hxk]
        exact List.mem_map.mpr ⟨x, hx, rfl⟩
      rw [phase2_lookup_preserved _ _ _ _ _ rfl hcond]
      exact lookupP_setP_self _ k _
  · intro k hk
    rw [hstep]
    show lookupP (phase2 _ _ _).2.promises k = _
    have hkc : k ≠ c := fun h => hk (by rw [h]; exact List.mem_cons_self c cs)
    have hkcs : k ∉ cs := fun h => hk (List.mem_cons_of_mem c h)
    have hcond : ∀ e ∈ cs.map (fun k => (k, (none : Option (Except Err (Option Item))))),
        e.2 = none → e.1 ≠ k := by
      intro e he _ hek
      rcases List.mem_map.mp he with ⟨x, hx, hxe⟩
      rw [← hxe] at hek
      have hxk : x = k := hek
      apply hkcs
      rw [← hxk]
      exact hx
    rw [phase2_lookup_preserved _ _ _ _ _ rfl hcond]
    rw [lookupP_setP_ne _ _ (Ne.symm hkc)]
    rw [p2]
    exact lookupP_placeholders_not_mem (by
      intro hmem
      exact hk (firstOcc_sub hmem))

/-! ## Later calls: cache hits and joining the dispatched batch -/

theorem runTick_cached (L : DataLoader) (s : LoaderState) (k : Key)
    (r : Except Err (Option Item)) (h : lookupP s.promises k = some (PVal.prom r)) :
    runTick L s [k] = ([{ key := k, cached := true, outcome := r }], s) := by
  rw [runTick_eq]
  have h1 : phase1 s [k] = ([(k, some r)], s) := by
    simp [phase1, loadSync, h]
  rw [h1]
  simp [phase2]

theorem runTick_join (L : DataLoader) (s : LoaderState) (q : Except Err (List Item)) (k : Key)
    (hq : s.activeQuery = some q) (hk : lookupP s.promises k = none) :
    (runTick L s [k]).1 = [{ key := k, cached := false, outcome := resolveKey q k }] ∧
    (runTick L s [k]).2.activeQuery = some q ∧
    (runTick L s [k]).2.batchCalls = s.batchCalls ∧
    (runTick L s [k]).2.schedCalls = s.schedCalls + 1 := by
  rw [runTick_eq]
  have h1 : phase1 s [k] =
      ([(k, none)],
       { s with promises := setP s.promises k PVal.nullPh,
                schedCalls := s.schedCalls + 1 }) := by
    simp [phase1, loadSync, hk]
  rw [h1]
  obtain ⟨a1, a2, a3, a4⟩ := phase2_active [(k, (none : Option (Except Err (Option Item))))]
    { s with promises := setP s.promises k PVal.nullPh, schedCalls := s.schedCalls + 1 }
    L q hq
  exact ⟨by rw [a1]; rfl, a2, a3, a4⟩

/-! ## Completeness of the collected key set -/

theorem mem_addKey_of_mem {acc : List Key} {k a : Key} (h : a ∈ acc) : a ∈ addKey acc k := by
  by_cases hm : k ∈ acc
  · simpa [addKey, hm] using h
  · simp [addKey, hm, h]

theorem mem_addKey_self (acc : List Key) (k : Key) : k ∈ addKey acc k := by
  by_cases hm : k ∈ acc
  · simp [addKey, hm]
  · simp [addKey, hm]

theorem foldl_addKey_mem_acc {calls : List Key} :
    ∀ {acc : List Key} {a : Key}, a ∈ acc → a ∈ calls.foldl addKey acc := by
  induction calls with
  | nil => intro acc a h; exact h
  | cons c cs ih => intro acc a h; exact ih (mem_addKey_of_mem h)

theorem foldl_addKey_mem_calls {calls : List Key} :
    ∀ {acc : List Key} {a : Key}, a ∈ calls → a ∈ calls.foldl addKey acc := by
  induction calls with
  | nil => intro acc a h; cases h
  | cons c cs ih =>
    intro acc a h
    rcases List.mem_cons.mp h with h' | h'
    · subst h'
      exact @foldl_addKey_mem_acc cs (addKey acc a) a (mem_addKey_self acc a)
    · exact ih h'

theorem firstOcc_mem {calls : List Key} {a : Key} (h : a ∈ calls) : a ∈ firstOcc calls :=
  foldl_addKey_mem_calls h

theorem tickIds_mem {calls : List Key} {a : Key} (h : a ∈ calls) : a ∈ tickIds calls :=
  (tickIds_perm calls).mem_iff.mpr (firstOcc_mem h)

/-! ## The first window of a fresh loader, at the level of `run` -/

theorem fresh_window_results (f : List Key → Except Err (List Item)) (c : Key) (cs : List Key) :
    (run { batchFn := some f } [c :: cs]).1 =
      [(c :: cs).map (fun k =>
        { key := k, cached := false, outcome := resolveKey (f (tickIds (c :: cs))) k })] ∧
    (run { batchFn := some f } [c :: cs]).2.batchCalls = [tickIds (c :: cs)] ∧
    (run { batchFn := some f } [c :: cs]).2.activeQuery = some (f (tickIds (c :: cs))) ∧
    (∀ k ∈ c :: cs,
      lookupP (run { batchFn := some f } [c :: cs]).2.promises k =
        some (PVal.prom (resolveKey (f (tickIds (c :: cs))) k))) := by
  obtain ⟨m1, m2, m3, _, m5, _⟩ := runTick_fresh f c cs
  rw [run_single]
  exact ⟨by rw [m1], m3, m2, m5⟩

/-! ## The claims -/

/-- C1: within one scheduling window (the first tick of a fresh loader
instance), the batch function is invoked at most once and each distinct key
appears at most once in that invocation — so each distinct key triggers the
underlying fetch at most once — and all `load` calls for the same key settle
with the same outcome, each derived from the single aggregate fetch. -/
theorem C1_window_single_fetch_idempotent
    (f : List Key → Except Err (List Item)) (calls : List Key) :
    ((run { batchFn := some f } [calls]).2.batchCalls.length ≤ 1 ∧
      ∀ ids ∈ (run { batchFn := some f } [calls]).2.batchCalls, ids.Nodup) ∧
    (∀ rs ∈ (run { batchFn := some f } [calls]).1, ∀ r1 ∈ rs, ∀ r2 ∈ rs,
      r1.key = r2.key → r1.outcome = r2.outcome) := by
  cases calls with
  | nil =>
    refine ⟨⟨?_, ?_⟩, ?_⟩
    · show (0 : Nat) ≤ 1
      omega
    · intro ids hids
      cases hids
    · intro rs hrs r1 hr1 r2 hr2 _
      have : rs = [] := by simpa [run_single, runTick_eq, phase1, phase2] using hrs
      rw [this] at hr1
      cases hr1
  | cons c cs =>
    obtain ⟨w1, w2, _, _⟩ := fresh_window_results f c cs
    refine ⟨⟨?_, ?_⟩, ?_⟩
    · rw [w2]
      simp
    · intro ids hids
      rw [w2] at hids
      have : ids = tickIds (c :: cs) := by simpa using hids
      rw [this]
      exact tickIds_nodup (c :: cs)
    · intro rs hrs r1 hr1 r2 hr2 hk
      rw [w1] at hrs
      have hrs' : rs = (c :: cs).map (fun k =>
          { key := k, cached := false,
            outcome := resolveKey (f (tickIds (c :: cs))) k }) := by simpa using hrs
      rw [hrs'] at hr1 hr2
      rcases List.mem_map.mp hr1 with ⟨k1, _, hk1⟩
      rcases List.mem_map.mp hr2 with ⟨k2, _, hk2⟩
      have h1 : r1.outcome = resolveKey (f (tickIds (c :: cs))) r1.key := by
        rw [← hk1]
      have h2 : r2.outcome = resolveKey (f (tickIds (c :: cs))) r2.key := by
        rw [← hk2]
      rw [h1, h2, hk]

/-- C1 witness: the duplicated key "7" requested twice in one tick — one
dispatch with no duplicate ids, and both calls settle with the same outcome. -/
theorem C1_window_single_fetch_idempotent_witness :
    ((run { batchFn := some exF } [["7", "7"]]).2.batchCalls.length ≤ 1 ∧
      ∀ ids ∈ (run { batchFn := some exF } [["7", "7"]]).2.batchCalls, ids.Nodup) ∧
    (∀ rs ∈ (run { batchFn := some exF } [["7", "7"]]).1, ∀ r1 ∈ rs, ∀ r2 ∈ rs,
      r1.key = r2.key → r1.outcome = r2.outcome) :=
  C1_window_single_fetch_idempotent exF ["7", "7"]

/-- C2 counterexample: keys "1" then "2" requested in two separate ticks of
the same loader.  The claim demands two batch-fetch invocations; the code
performs exactly one (`activeQuery` is never reset), and the second call
resolves against the first batch's result — to `undefined`, since the first
batch only fetched id 1. -/
theorem C2_counterexample_no_window_reset :
    (run exLoader [["1"], ["2"]]).2.batchCalls = [["1"]] ∧
    (run exLoader [["1"], ["2"]]).2.batchCalls.length ≠ 2 ∧
    (run exLoader [["1"], ["2"]]).1 =
      [[{ key := "1", cached := false,
          outcome := Except.ok (some { id := 1, payload := "Alice" }) }],
       [{ key := "2", cached := false, outcome := Except.ok none }]] :=
  ⟨by decide, by decide, by decide⟩

/-- C2 amended: the window does NOT reset after dispatch.  A key requested in
a later tick joins the already-dispatched Active Batch: two distinct keys in
two separate ticks cause exactly one batch-fetch invocation (carrying only
the first key), and the second key resolves by looking itself up in the
first batch's outcome. -/
theorem C2_amended_second_tick_joins_first_batch
    (f : List Key → Except Err (List Item)) (a b : Key) (hab : a ≠ b) :
    (run { batchFn := some f } [[a], [b]]).2.batchCalls = [[a]] ∧
    (run { batchFn := some f } [[a], [b]]).1 =
      [[{ key := a, cached := false, outcome := resolveKey (f [a]) a }],
       [{ key := b, cached := false, outcome := resolveKey (f [a]) b }]] := by
  obtain ⟨m1, m2, m3, _, _, m6⟩ := runTick_fresh f a []
  rw [tickIds_singleton a] at m1 m2 m3
  have hb : lookupP (runTick { batchFn := some f } initState [a]).2.promises b = none := by
    apply m6
    intro hmem
    rcases List.mem_singleton.mp hmem with h
    exact hab h.symm
  obtain ⟨j1, j2, j3, j4⟩ :=
    runTick_join { batchFn := some f } (runTick { batchFn := some f } initState [a]).2
      (f [a]) b m2 hb
  rw [run_two]
  constructor
  · show (runTick { batchFn := some f }
        (runTick { batchFn := some f } initState [a]).2 [b]).2.batchCalls = [[a]]
    rw [j3, m3]
  · show [(runTick { batchFn := some f } initState [a]).1,
          (runTick { batchFn := some f }
            (runTick { batchFn := some f } initState [a]).2 [b]).1] = _
    rw [m1, j1]
    rfl

/-- C2 amended witness: concrete keys "1" and "2" over the sample table. -/
theorem C2_amended_second_tick_joins_first_batch_witness :
    (run { batchFn := some exF } [["1"], ["2"]]).2.batchCalls = [["1"]] ∧
    (run { batchFn := some exF } [["1"], ["2"]]).1 =
      [[{ key := "1", cached := false, outcome := resolveKey (exF ["1"]) "1" }],
       [{ key := "2", cached := false, outcome := resolveKey (exF ["1"]) "2" }]] :=
  C2_amended_second_tick_joins_first_batch exF "1" "2" (by decide)

/-- C3 counterexample: keys "2" then "1" requested in one tick.  The claim
says the batch function receives them in order of first request, `["2","1"]`;
`Object.keys` enumerates integer-like property names in ascending numeric
order, so the code passes `["1","2"]`. -/
theorem C3_counterexample_enumeration_order :
    (run exLoader [["2", "1"]]).2.batchCalls = [["1", "2"]] ∧
    (run exLoader [["2", "1"]]).2.batchCalls ≠ [["2", "1"]] :=
  ⟨by decide, by decide⟩

/-- C3 amended: for every nonempty sequence of `load` calls in a fresh
window, the batch function is invoked exactly once, with each distinct
requested key exactly once, in ECMAScript own-property enumeration order —
integer-like keys first in ascending numeric order, then the remaining keys
in first-request order — rather than strictly in order of first request. -/
theorem C3_amended_single_dispatch_enumeration_order
    (f : List Key → Except Err (List Item)) (calls : List Key) (hne : calls ≠ []) :
    (run { batchFn := some f } [calls]).2.batchCalls = [tickIds calls] ∧
    tickIds calls =
      sortByNum ((firstOcc calls).filter isArrayIndex) ++
        (firstOcc calls).filter (fun k => !isArrayIndex k) ∧
    (tickIds calls).Nodup ∧
    (∀ k ∈ tickIds calls, k ∈ calls) ∧
    (∀ k ∈ calls, k ∈ tickIds calls) := by
  cases calls with
  | nil => exact absurd rfl hne
  | cons c cs =>
    obtain ⟨_, w2, _, _⟩ := fresh_window_results f c cs
    exact ⟨w2, rfl, tickIds_nodup (c :: cs), fun k hk => tickIds_sub hk,
      fun k hk => tickIds_mem hk⟩

/-- C3 amended witness: the spec's example keys 1,2,4,5,6,10,18 requested in
one tick — one dispatch, and (being already in ascending order) the ids are
exactly the seven keys in first-request order. -/
theorem C3_amended_single_dispatch_enumeration_order_witness :
    tickIds ["1", "2", "4", "5", "6", "10", "18"] = ["1", "2", "4", "5", "6", "10", "18"] ∧
    (((["1", "2", "4", "5", "6", "10", "18"] : List Key) ≠ []) ∧
     ((run { batchFn := some exF } [["1", "2", "4", "5", "6", "10", "18"]]).2.batchCalls =
        [tickIds ["1", "2", "4", "5", "6", "10", "18"]] ∧
      tickIds ["1", "2", "4", "5", "6", "10", "18"] =
        sortByNum ((firstOcc ["1", "2", "4", "5", "6", "10", "18"]).filter isArrayIndex) ++
          (firstOcc ["1", "2", "4", "5", "6", "10", "18"]).filter (fun k => !isArrayIndex k) ∧
      (tickIds ["1", "2", "4", "5", "6", "10", "18"]).Nodup ∧
      (∀ k ∈ tickIds ["1", "2", "4", "5", "6", "10", "18"],
        k ∈ (["1", "2", "4", "5", "6", "10", "18"] : List Key)) ∧
      (∀ k ∈ (["1", "2", "4", "5", "6", "10", "18"] : List Key),
        k ∈ tickIds ["1", "2", "4", "5", "6", "10", "18"]))) :=
  ⟨by decide,
   ⟨by decide,
    C3_amended_single_dispatch_enumeration_order exF ["1", "2", "4", "5", "6", "10", "18"]
      (by decide)⟩⟩

/-- C4: if the window's aggregate fetch fails, every `load` call waiting on
that Active Batch settles with that same error — no partial success — and the
batch function is invoked exactly once (no automatic retry). -/
theorem C4_aggregate_failure_fails_all
    (f : List Key → Except Err (List Item)) (calls : List Key) (e : Err)
    (hne : calls ≠ []) (hfail : f (tickIds calls) = Except.error e) :
    (run { batchFn := some f } [calls]).2.batchCalls.length = 1 ∧
    (∀ rs ∈ (run { batchFn := some f } [calls]).1, ∀ r ∈ rs,
      r.outcome = Except.error e) := by
  cases calls with
  | nil => exact absurd rfl hne
  | cons c cs =>
    obtain ⟨w1, w2, _, _⟩ := fresh_window_results f c cs
    constructor
    · rw [w2]
      rfl
    · intro rs hrs r hr
      rw [w1] at hrs
      have hrs' : rs = (c :: cs).map (fun k =>
          { key := k, cached := false,
            outcome := resolveKey (f (tickIds (c :: cs))) k }) := by simpa using hrs
      rw [hrs'] at hr
      rcases List.mem_map.mp hr with ⟨k, _, hkr⟩
      rw [← hkr]
      show resolveKey (f (tickIds (c :: cs))) k = Except.error e
      rw [hfail]
      rfl

/-- C4 witness: a batch function whose fetch always rejects with "db down";
both keys of the window fail with exactly that error. -/
theorem C4_aggregate_failure_fails_all_witness :
    ((["1", "2"] : List Key) ≠ []) ∧
    exFailF (tickIds ["1", "2"]) = Except.error "db down" ∧
    ((run { batchFn := some exFailF } [["1", "2"]]).2.batchCalls.length = 1 ∧
     (∀ rs ∈ (run { batchFn := some exFailF } [["1", "2"]]).1, ∀ r ∈ rs,
       r.outcome = Except.error "db down")) :=
  ⟨by decide, rfl,
   C4_aggregate_failure_fails_all exFailF ["1", "2"] "db down" (by decide) rfl⟩

/-- C5 counterexample: the key "7" requested twice in the same tick.  After
the first call a pending entry (the `null` placeholder) exists for "7", yet
the second call does not return it: being falsy, it fails the cache test, so
the duplicate call re-registers the placeholder and awaits the scheduler
again — two scheduling suspensions, and neither call is served from cache. -/
theorem C5_counterexample_placeholder_no_dedup :
    (phase1 initState ["7"]).2.promises = [("7", PVal.nullPh)] ∧
    (run exLoader [["7", "7"]]).2.schedCalls = 2 ∧
    ((run exLoader [["7", "7"]]).1.map (fun rs => rs.map (fun r => r.cached))) =
      [[false, false]] :=
  ⟨by decide, by decide, by decide⟩

/-- C5 amended: only a truthy cached entry dedups.  When the cache holds the
promise written by a key's batch assignment (not the falsy `null`
placeholder), `load(key)` returns that cached entry unchanged, without
registering a new placeholder and without proceeding to scheduling: the
state is exactly preserved and the call is served from cache. -/
theorem C5_amended_truthy_cache_dedup
    (L : DataLoader) (s : LoaderState) (k : Key) (r : Except Err (Option Item))
    (h : lookupP s.promises k = some (PVal.prom r)) :
    runTick L s [k] = ([{ key := k, cached := true, outcome := r }], s) :=
  runTick_cached L s k r h

/-- C5 amended witness: a state caching a resolved promise for key "5"; the
call is answered from cache and the state is untouched. -/
theorem C5_amended_truthy_cache_dedup_witness :
    lookupP [("5", PVal.prom (Except.ok (some { id := 5, payload := "Eve" })))] "5" =
      some (PVal.prom (Except.ok (some { id := 5, payload := "Eve" }))) ∧
    runTick exLoader
      { promises := [("5", PVal.prom (Except.ok (some { id := 5, payload := "Eve" })))],
        activeQuery := some (Except.ok [{ id := 5, payload := "Eve" }]),
        batchCalls := [["5"]], schedCalls := 1 } ["5"] =
      ([{ key := "5", cached := true,
          outcome := Except.ok (some { id := 5, payload := "Eve" }) }],
       { promises := [("5", PVal.prom (Except.ok (some { id := 5, payload := "Eve" })))],
         activeQuery := some (Except.ok [{ id := 5, payload := "Eve" }]),
         batchCalls := [["5"]], schedCalls := 1 }) :=
  ⟨by decide,
   C5_amended_truthy_cache_dedup exLoader
     { promises := [("5", PVal.prom (Except.ok (some { id := 5, payload := "Eve" })))],
       activeQuery := some (Except.ok [{ id := 5, payload := "Eve" }]),
       batchCalls := [["5"]], schedCalls := 1 } "5"
     (Except.ok (some { id := 5, payload := "Eve" })) (by decide)⟩

/-- C6: when the window's aggregate fetch succeeds but its returned
collection has no item matching a requested key, that call settles with the
"missing result" value `Except.ok none` (`undefined`) — which is not an
aggregate failure — while every call's outcome is computed from its own key
only, so callers of other keys are unaffected. -/
theorem C6_missing_key_resolves_undefined
    (f : List Key → Except Err (List Item)) (calls : List Key) (items : List Item)
    (hne : calls ≠ []) (hok : f (tickIds calls) = Except.ok items) :
    ∀ rs ∈ (run { batchFn := some f } [calls]).1, ∀ r ∈ rs,
      r.outcome = Except.ok (items.find? (fun it => idMatches it.id (jsNumber r.key))) ∧
      ((∀ it ∈ items, idMatches it.id (jsNumber r.key) = false) →
        r.outcome = Except.ok none) ∧
      (∀ e : Err, r.outcome ≠ Except.error e) := by
  cases calls with
  | nil => exact absurd rfl hne
  | cons c cs =>
    obtain ⟨w1, _, _, _⟩ := fresh_window_results f c cs
    intro rs hrs r hr
    rw [w1] at hrs
    have hrs' : rs = (c :: cs).map (fun k =>
        { key := k, cached := false,
          outcome := resolveKey (f (tickIds (c :: cs))) k }) := by simpa using hrs
    rw [hrs'] at hr
    rcases List.mem_map.mp hr with ⟨k, _, hkr⟩
    have hout : r.outcome =
        Except.ok (items.find? (fun it => idMatches it.id (jsNumber r.key))) := by
      rw [← hkr]
      show resolveKey (f (tickIds (c :: cs))) k = _
      rw [hok]
      rfl
    refine ⟨hout, ?_, ?_⟩
    · intro hnone
      rw [hout]
      have : items.find? (fun it => idMatches it.id (jsNumber r.key)) = none := by
        rw [List.find?_eq_none]
        intro x hx
        simp [hnone x hx]
      rw [this]
    · intro e
      rw [hout]
      intro hc
      cases hc

/-- C6 witness: keys "1" and "3" in one tick over the sample table; the
fetch succeeds with only id 1, so the caller of "3" gets `Except.ok none`
while the caller of "1" receives Alice. -/
theorem C6_missing_key_resolves_undefined_witness :
    ((["1", "3"] : List Key) ≠ []) ∧
    exF (tickIds ["1", "3"]) = Except.ok [{ id := 1, payload := "Alice" }] ∧
    (∀ rs ∈ (run { batchFn := some exF } [["1", "3"]]).1, ∀ r ∈ rs,
      r.outcome = Except.ok (([{ id := 1, payload := "Alice" }] : List Item).find?
        (fun it => idMatches it.id (jsNumber r.key))) ∧
      ((∀ it ∈ ([{ id := 1, payload := "Alice" }] : List Item),
          idMatches it.id (jsNumber r.key) = false) → r.outcome = Except.ok none) ∧
      (∀ e : Err, r.outcome ≠ Except.error e)) :=
  ⟨by decide, by decide,
   C6_missing_key_resolves_undefined exF ["1", "3"] [{ id := 1, payload := "Alice" }]
     (by decide) (by decide)⟩

/-- C7: when the window's fetch succeeds, a requested key's call resolves to
the first element of the aggregate result whose id strictly equals
`Number(key)` — selection by equality on the key — and that resolved promise
is stored in the cache, so a future call for the same key on this loader is
served from the cache directly, with the same value and no state change. -/
theorem C7_resolves_matching_item_and_caches
    (f : List Key → Except Err (List Item)) (calls : List Key) (items : List Item) (k : Key)
    (hne : calls ≠ []) (hk : k ∈ calls) (hok : f (tickIds calls) = Except.ok items) :
    (∀ rs ∈ (run { batchFn := some f } [calls]).1, ∀ r ∈ rs, r.key = k →
      r.outcome = Except.ok (items.find? (fun it => idMatches it.id (jsNumber k)))) ∧
    (∀ m : Item, items.find? (fun it => idMatches it.id (jsNumber k)) = some m →
      jsNumber k = some m.id) ∧
    lookupP (run { batchFn := some f } [calls]).2.promises k =
      some (PVal.prom (Except.ok (items.find? (fun it => idMatches it.id (jsNumber k))))) ∧
    runTick { batchFn := some f } (run { batchFn := some f } [calls]).2 [k] =
      ([{ key := k, cached := true,
          outcome := Except.ok (items.find? (fun it => idMatches it.id (jsNumber k))) }],
       (run { batchFn := some f } [calls]).2) := by
  cases calls with
  | nil => exact absurd rfl hne
  | cons c cs =>
    obtain ⟨w1, _, _, w4⟩ := fresh_window_results f c cs
    have hres : resolveKey (f (tickIds (c :: cs))) k =
        Except.ok (items.find? (fun it => idMatches it.id (jsNumber k))) := by
      rw [hok]
      rfl
    have hcache := w4 k hk
    rw [hres] at hcache
    refine ⟨?_, ?_, hcache, ?_⟩
    · intro rs hrs r hr hrk
      rw [w1] at hrs
      have hrs' : rs = (c :: cs).map (fun k =>
          { key := k, cached := false,
            outcome := resolveKey (f (tickIds (c :: cs))) k }) := by simpa using hrs
      rw [hrs'] at hr
      rcases List.mem_map.mp hr with ⟨k', _, hkr⟩
      have : r.outcome = resolveKey (f (tickIds (c :: cs))) r.key := by
        rw [← hkr]
      rw [this, hrk, hres]
    · intro m hm
      have hp := List.find?_some hm
      unfold idMatches at hp
      cases hjs : jsNumber k with
      | none => rw [hjs] at hp; cases hp
      | some n =>
        rw [hjs] at hp
        have : m.id = n := by
          simpa using hp
        rw [this]
    · exact runTick_cached { batchFn := some f } (run { batchFn := some f } [c :: cs]).2 k
        (Except.ok (items.find? (fun it => idMatches it.id (jsNumber k)))) hcache

/-- C7 witness: keys "1" and "2" over the sample table; the call for "1"
resolves to Alice (the item whose id equals Number("1")), the resolved value
is cached, and a later call for "1" is served from cache unchanged. -/
theorem C7_resolves_matching_item_and_caches_witness :
    ((["1", "2"] : List Key) ≠ []) ∧ (("1" : Key) ∈ (["1", "2"] : List Key)) ∧
    exF (tickIds ["1", "2"]) =
      Except.ok [{ id := 1, payload := "Alice" }, { id := 2, payload := "Bob" }] ∧
    ((∀ rs ∈ (run { batchFn := some exF } [["1", "2"]]).1, ∀ r ∈ rs, r.key = "1" →
        r.outcome = Except.ok
          (([{ id := 1, payload := "Alice" }, { id := 2, payload := "Bob" }] : List Item).find?
            (fun it => idMatches it.id (jsNumber "1")))) ∧
     (∀ m : Item,
        ([{ id := 1, payload := "Alice" }, { id := 2, payload := "Bob" }] : List Item).find?
          (fun it => idMatches it.id (jsNumber "1")) = some m → jsNumber "1" = some m.id) ∧
     lookupP (run { batchFn := some exF } [["1", "2"]]).2.promises "1" =
       some (PVal.prom (Except.ok
         (([{ id := 1, payload := "Alice" }, { id := 2, payload := "Bob" }] : List Item).find?
           (fun it => idMatches it.id (jsNumber "1"))))) ∧
     runTick { batchFn := some exF } (run { batchFn := some exF } [["1", "2"]]).2 ["1"] =
       ([{ key := "1", cached := true,
           outcome := Except.ok
             (([{ id := 1, payload := "Alice" }, { id := 2, payload := "Bob" }] : List Item).find?
               (fun it => idMatches it.id (jsNumber "1"))) }],
        (run { batchFn := some exF } [["1", "2"]]).2)) :=
  ⟨by decide, by decide, by decide,
   C7_resolves_matching_item_and_caches exF ["1", "2"]
     [{ id := 1, payload := "Alice" }, { id := 2, payload := "Bob" }] "1"
     (by decide) (by decide) (by decide)⟩

/-- C8 counterexample: a loader constructed without a batch function.  The
first `load` does fail fast at the first batch dispatch, but the error is a
TypeError from calling the own `batchFn` property (which the constructor
unconditionally set to `undefined`), not the prototype default's
`Error('Not implemented')`: the own property shadows the prototype method,
so the unimplemented default never throws. -/
theorem C8_counterexample_typeerror_not_default :
    (run noFnLoader [["1"]]).1 =
      [[{ key := "1", cached := false, outcome := Except.error typeErr }]] ∧
    protoBatchFn ["1"] = Except.error notImplErr ∧
    typeErr ≠ notImplErr ∧
    (run noFnLoader [["1"]]).2.batchCalls = [] :=
  ⟨by decide, by decide, by decide, by decide⟩

/-- C8 amended: constructing a loader without a batch function makes the
first use of `load` fail fast at the first batch dispatch — but with the
TypeError of invoking the own `undefined` `batchFn` property (the
constructor's unconditional assignment shadows the prototype's
'Not implemented' default, which never runs); no batch is recorded and no
active query is created. -/
theorem C8_amended_no_batchfn_fails_fast (k : Key) :
    (run noFnLoader [[k]]).1 =
      [[{ key := k, cached := false, outcome := Except.error typeErr }]] ∧
    (run noFnLoader [[k]]).2.batchCalls = [] ∧
    (run noFnLoader [[k]]).2.activeQuery = none := by
  rw [run_single, runTick_eq]
  have h1 : phase1 initState [k] =
      ([(k, none)],
       { initState with promises := [(k, PVal.nullPh)], schedCalls := 1 }) := by
    simp [phase1, loadSync, lookupP, initState, setP]
  rw [h1]
  refine ⟨?_, ?_, ?_⟩ <;> simp [phase2, loadCont, noFnLoader, initState]

/-- C9: keys live as string property names (the model's `Key` is `String`,
matching the coercion `this.promises[key]` performs); the batch function
receives exactly the collected property-name strings; result selection
compares `item.id === Number(key)`; consequently a key whose `Number`
coercion is NaN — any non-numeric string — can match no item id and its call
resolves to `undefined`, not a matching item. -/
theorem C9_string_keys_number_coercion
    (f : List Key → Except Err (List Item)) (calls : List Key) (items : List Item)
    (hne : calls ≠ []) (hok : f (tickIds calls) = Except.ok items) :
    (run { batchFn := some f } [calls]).2.batchCalls = [tickIds calls] ∧
    (∀ k ∈ tickIds calls, k ∈ calls) ∧
    (∀ rs ∈ (run { batchFn := some f } [calls]).1, ∀ r ∈ rs,
      r.outcome = Except.ok (items.find? (fun it => idMatches it.id (jsNumber r.key))) ∧
      (jsNumber r.key = none → r.outcome = Except.ok none)) := by
  cases calls with
  | nil => exact absurd rfl hne
  | cons c cs =>
    obtain ⟨w1, w2, _, _⟩ := fresh_window_results f c cs
    refine ⟨w2, fun k hk => tickIds_sub hk, ?_⟩
    intro rs hrs r hr
    rw [w1] at hrs
    have hrs' : rs = (c :: cs).map (fun k =>
        { key := k, cached := false,
          outcome := resolveKey (f (tickIds (c :: cs))) k }) := by simpa using hrs
    rw [hrs'] at hr
    rcases List.mem_map.mp hr with ⟨k, _, hkr⟩
    have hout : r.outcome =
        Except.ok (items.find? (fun it => idMatches it.id (jsNumber r.key))) := by
      rw [← hkr]
      show resolveKey (f (tickIds (c :: cs))) k = _
      rw [hok]
      rfl
    refine ⟨hout, ?_⟩
    intro hnan
    rw [hout]
    have : items.find? (fun it => idMatches it.id (jsNumber r.key)) = none := by
      rw [List.find?_eq_none]
      intro x _
      rw [hnan]
      simp [idMatches]
    rw [this]

/-- C9 witness: the non-numeric key "abc" — `Number("abc")` is NaN, the batch
receives the string `"abc"`, and the call resolves to `undefined` even
though the model of the comparison is exercised against the fetched rows. -/
theorem C9_string_keys_number_coercion_witness :
    ((["abc"] : List Key) ≠ []) ∧
    exF (tickIds ["abc"]) = Except.ok [] ∧
    jsNumber "abc" = none ∧
    ((run { batchFn := some exF } [["abc"]]).2.batchCalls = [tickIds ["abc"]] ∧
     (∀ k ∈ tickIds ["abc"], k ∈ (["abc"] : List Key)) ∧
     (∀ rs ∈ (run { batchFn := some exF } [["abc"]]).1, ∀ r ∈ rs,
       r.outcome = Except.ok (([] : List Item).find?
         (fun it => idMatches it.id (jsNumber r.key))) ∧
       (jsNumber r.key = none → r.outcome = Except.ok none))) :=
  ⟨by decide, by decide, by decide,
   C9_string_keys_number_coercion exF ["abc"] [] (by decide) (by decide)⟩

/-- C10: in the MDX component mapping, the component registered for the
markup element name `del` renders an `ins` element carrying the blue
background class `bg-blue-800` — not a `del` element — so deleted-content
markup is emitted as an insertion element in the styled output. -/
theorem C10_del_renders_ins :
    mdxComponentFor "del" =
      some { tag := "ins", className := "block px-4 -mx-4 bg-blue-800" } ∧
    (mdxComponentFor "del").map MdxComponent.tag = some "ins" ∧
    (mdxComponentFor "del").map MdxComponent.tag ≠ some "del" ∧
    (mdxComponentFor "del").map (fun c => hasClass c "bg-blue-800") = some true :=
  ⟨by decide, by decide, by decide, by decide⟩
